import Mathlib

set_option maxRecDepth 100000

/-!
Verification development for the `lib-keccak` differential fuzzer
(`src/main.rs`, `src/hashing.rs`, `src/constants.rs`).

The program compares a reference Keccak-256 implementation (`tiny-keccak`)
against a `StatefulSponge` contract executed inside an EVM, across a pool of
concurrent fuzz workers.  The embedding below models:

* the Keccak-256 primitive (shared by both backends; the `tiny-keccak` crate
  and the contract bytecode are external to `src/`, so the primitive is
  modelled once, from the spec's description of a 32-byte-digest hash),
* `hash_input_tiny` and `hash_input_evm` from `src/hashing.rs`,
* the fuzz worker loop `fuzz_task`, the deployment helper `deploy_contract`,
  and the run controller from `src/main.rs`.

Bytes are `Nat`s reduced mod 256 where it matters; machine words are `Nat`s
reduced mod `2 ^ 64`.  Fallible Rust code (`Result`, panics) is modelled with
`Except` / `Option`.
-/

namespace KeccakFuzz

/-! ## Keccak-256 primitive

Modelled from the spec: the hash function itself lives in the external
`tiny-keccak` crate (and, for the candidate, in the contract bytecode under
`testdata/`), not under `src/`.  The spec describes it as a fixed-output
32-byte sponge hash; we model the standard Keccak-256 (rate 136, pad 0x01,
Keccak-f[1600]) as an executable function on byte lists. -/

def w64 : Nat := 2 ^ 64

/-- Rotate a 64-bit lane left by `n` bits (`0 ≤ n < 64`). -/
def rotl (u n : Nat) : Nat := ((u <<< n) ||| (u >>> (64 - n))) % w64

/-- One step of the degree-8 LFSR (x^8 + x^6 + x^5 + x^4 + 1) that generates
the ι round constants. -/
def rcStep (r : Nat) : Nat := ((r <<< 1) ^^^ ((r >>> 7) * 0x71)) % 256

/-- Round constant of one round from the current LFSR state: bit `2^j - 1`
of the constant is the LFSR output of sub-step `j`, for `j = 0..6`.  Returns
the constant together with the next LFSR state. -/
def rcWord (r : Nat) : Nat × Nat :=
  (List.range 7).foldl
    (fun st j =>
      let r1 := rcStep st.2
      (if (r1 >>> 1) % 2 = 1 then st.1 ^^^ (1 <<< (2 ^ j - 1)) else st.1, r1))
    (0, r)

/-- The 24 Keccak-f[1600] ι round constants, generated from LFSR state 1. -/
def keccakRC : List Nat :=
  ((List.range 24).foldl
    (fun st _ =>
      let w := rcWord st.2
      (st.1 ++ [w.1], w.2))
    (([] : List Nat), 1)).1

/-- The ρ rotation offsets as (lane index, offset) pairs, generated by the
standard walk: starting from lane (1,0), step `t` assigns offset
`(t+1)(t+2)/2 mod 64` to the current lane and moves to `(y, 2x+3y mod 5)`;
lane (0,0), never visited, keeps offset 0. -/
def rhoOffsetPairs : List (Nat × Nat) :=
  ((List.range 24).foldl
    (fun st t =>
      let x := st.1
      let y := st.2.1
      let acc := st.2.2
      (y, (2 * x + 3 * y) % 5, acc ++ [(x + 5 * y, (t + 1) * (t + 2) / 2 % 64)]))
    (1, 0, ([] : List (Nat × Nat)))).2.2

/-- Rotation offset of the lane at index `i = x + 5 * y`. -/
def rotOffset (i : Nat) : Nat :=
  ((rhoOffsetPairs.filter (fun p => p.1 = i)).headD (0, 0)).2

/-- Lane `i` of a 25-lane state (0 when out of range). -/
def lane (s : List Nat) (i : Nat) : Nat := s.getD i 0

/-- Keccak θ step. -/
def theta (s : List Nat) : List Nat :=
  let c := fun x => lane s x ^^^ lane s (x + 5) ^^^ lane s (x + 10) ^^^
    lane s (x + 15) ^^^ lane s (x + 20)
  let d := fun x => c ((x + 4) % 5) ^^^ rotl (c ((x + 1) % 5)) 1
  (List.range 25).map (fun i => lane s i ^^^ d (i % 5))

/-- Keccak ρ and π steps combined: the lane landing at position
`(x, y)` comes from position `((x + 3 * y) % 5, x)`, rotated. -/
def rhoPi (s : List Nat) : List Nat :=
  (List.range 25).map (fun j =>
    let x := j % 5
    let y := j / 5
    let src := ((x + 3 * y) % 5) + 5 * x
    rotl (lane s src) (rotOffset src))

/-- Keccak χ step. -/
def chi (s : List Nat) : List Nat :=
  (List.range 25).map (fun j =>
    let x := j % 5
    let y := j / 5
    lane s j ^^^ ((lane s (((x + 1) % 5) + 5 * y) ^^^ (w64 - 1)) &&&
      lane s (((x + 2) % 5) + 5 * y)))

/-- Keccak ι step. -/
def iota (rc : Nat) (s : List Nat) : List Nat :=
  match s with
  | [] => []
  | a :: rest => (a ^^^ rc) :: rest

/-- The full Keccak-f[1600] permutation (24 rounds). -/
def keccakF (s : List Nat) : List Nat :=
  keccakRC.foldl (fun st rc => iota rc (chi (rhoPi (theta st)))) s

/-- Keccak pad10*1 with domain byte 0x01, rate 136 bytes. -/
def pad (msg : List Nat) : List Nat :=
  let q := 136 - msg.length % 136
  if q = 1 then msg ++ [0x81]
  else msg ++ [0x01] ++ List.replicate (q - 2) 0 ++ [0x80]

/-- Little-endian interpretation of up to 8 bytes as a 64-bit lane. -/
def bytesToLane (bs : List Nat) : Nat :=
  bs.foldr (fun b acc => b % 256 + 256 * acc) 0

/-- XOR one 136-byte block into the state and permute. -/
def absorbBlock (st : List Nat) (block : List Nat) : List Nat :=
  keccakF ((List.range 25).map (fun i =>
    lane st i ^^^ (if i < 17 then bytesToLane ((block.drop (8 * i)).take 8) else 0)))

/-- Absorb a padded message, 136 bytes at a time. -/
def absorbChunks (st : List Nat) (data : List Nat) : List Nat :=
  (List.range (data.length / 136)).foldl
    (fun s k => absorbBlock s ((data.drop (136 * k)).take 136)) st

/-- Keccak-256 of a byte list: absorb the padded input, then read the first
32 bytes (lanes 0..3, little-endian) of the final state. -/
def keccak256 (msg : List Nat) : List Nat :=
  let st := absorbChunks (List.replicate 25 0) (pad msg)
  (List.range 32).map (fun i => (lane st (i / 8) >>> (8 * (i % 8))) % 256)

/-- Hex digit for a value below 16 (lowercase, as `hex::encode` produces). -/
def hexDigit (n : Nat) : Char :=
  if n < 10 then Char.ofNat (48 + n) else Char.ofNat (87 + n)

/-- Lowercase hex encoding of a byte list, mirroring `hex::encode`. -/
def hexEncode (bs : List Nat) : String :=
  String.mk (bs.flatMap (fun b => [hexDigit (b % 256 / 16), hexDigit (b % 16)]))

/-! ## `src/hashing.rs` -/

/-- `hash_input_tiny(input, output)` from `src/hashing.rs`: hash `input` with
Keccak-256 and write the digest into the caller's `output` buffer.  The model
returns the new buffer contents: the 32 digest bytes overwrite the first 32
bytes, any surplus of the buffer is untouched (all call sites pass a 32-byte
buffer). -/
def hash_input_tiny (input : List Nat) (output : List Nat) : List Nat :=
  keccak256 input ++ output.drop 32

/-- The two calls `hash_input_evm` ABI-encodes (`absorbCall`, `squeezeCall`
from the `sol!` block in `src/hashing.rs`).  The alloy encoder is external;
encoding is modelled by the injective constructors. -/
inductive Calldata
  | absorb (input : List Nat)
  | squeeze
  deriving DecidableEq

/-- `revm::primitives::Output`: return data of a call or a create. -/
inductive EvmOutput
  | call (data : List Nat)
  | create (data : List Nat)
  deriving DecidableEq

/-- `revm::primitives::ExecutionResult`: success with output, revert, halt. -/
inductive ExecutionResult
  | success (output : EvmOutput)
  | revert (output : List Nat)
  | halt (reason : String)
  deriving DecidableEq

/-- One `evm.transact_commit()` against the deployed sponge: from an EVM
state and the transaction calldata, either an `EVMError` (the outer
`Except.error`) or an `ExecutionResult` plus the committed state. -/
def Transact (σ : Type) : Type := σ → Calldata → Except String (ExecutionResult × σ)

/-- `squeezeCall::abi_decode_returns(data, false)`: the `bytes32` return value
is the first 32-byte word; decoding fails when the output is shorter. -/
def abi_decode_returns (data : List Nat) : Except String (List Nat) :=
  if 32 ≤ data.length then Except.ok (data.take 32)
  else Except.error "abi_decode: buffer overrun while deserializing"

/-- `hash_input_evm` from `src/hashing.rs`: absorb the input into the sponge
contract, require success, then squeeze and decode the 32-byte digest.  The
EVM (`revm`) is abstracted as `transact`; the Rust `?` on `transact_commit`
and on the decode are the `Except.error` branches. -/
def hash_input_evm {σ : Type} (transact : Transact σ) (s : σ) (input : List Nat) :
    Except String (List Nat × σ) :=
  match transact s (Calldata.absorb input) with
  | Except.error e => Except.error e
  | Except.ok (r1, s1) =>
    match r1 with
    | ExecutionResult.success _ =>
      match transact s1 Calldata.squeeze with
      | Except.error e => Except.error e
      | Except.ok (ExecutionResult.success (EvmOutput.call data), s2) =>
        match abi_decode_returns data with
        | Except.ok digest => Except.ok (digest, s2)
        | Except.error e => Except.error e
      | Except.ok (_, _) => Except.error "Squeeze call failed"
    | _ => Except.error "Absorb call failed"

/-- Modelled from the spec: the `StatefulSponge` contract itself lives in
`testdata/stateful_sponge` (compiled bytecode, not under `src/`).  Per spec
§4.2 its `absorb` entry point appends the calldata bytes to an internal
buffer kept in contract storage, and `squeeze` returns the Keccak-256 digest
of the accumulated buffer and resets the buffer.  The EVM state is modelled
as that buffer. -/
def spongeTransact : Transact (List Nat) := fun s c =>
  match c with
  | Calldata.absorb input =>
      Except.ok (ExecutionResult.success (EvmOutput.call []), s ++ input)
  | Calldata.squeeze =>
      Except.ok (ExecutionResult.success (EvmOutput.call (keccak256 s)), [])

/-! ## `src/main.rs` -/

/-- Modelled from the spec: the RNG is the external `rand` crate.
`rng.gen_range(lo..hi)` panics on an empty range (modelled as `none`) and
otherwise returns a uniformly distributed value in `[lo, hi)`; one draw is
modelled as an arbitrary seed reduced modulo the range size. -/
def gen_range (seed lo hi : Nat) : Option Nat :=
  if lo < hi then some (lo + seed % (hi - lo)) else none

/-- Rust slicing `v[0..n]`: panics (modelled as `none`) when `n` exceeds the
buffer length. -/
def slice (l : List Nat) (n : Nat) : Option (List Nat) :=
  if n ≤ l.length then some (l.take n) else none

/-- The `bail!` message of `fuzz_task` on a digest mismatch at iteration `i`.
Faithful to the code: it hex-encodes `bytes`, the whole reused input buffer,
not the `in_slice` that was actually hashed. -/
def mismatch_message (i : Nat) (buffer : List Nat) : String :=
  "Hash mismatch at iteration " ++ toString i ++ " - input: " ++ hexEncode buffer

/-- The iteration loop of `fuzz_task` from `src/main.rs`.  The per-iteration
randomness is an oracle list: for each iteration a seed for the length draw
and the bytes `rng.fill` writes into the slice.  State carried across
iterations: the EVM state `s` and the reused input buffer.  `i` is the
iteration counter. -/
def fuzz_loop {σ : Type} (transact : Transact σ) (max_input_bytes : Nat) :
    σ → List Nat → Nat → List (Nat × List Nat) → Except String Unit
  | _, _, _, [] => Except.ok ()
  | s, buffer, i, (seed, fill) :: rest =>
    match gen_range seed 0 max_input_bytes with
    | none => Except.error "panicked: cannot sample empty range"
    | some len =>
      let buffer1 := fill.take len ++ buffer.drop len
      let in_slice := buffer1.take len
      let hash_tiny := hash_input_tiny in_slice (List.replicate 32 0)
      match hash_input_evm transact s in_slice with
      | Except.error e => Except.error e
      | Except.ok (hash_evm, s1) =>
        if hash_tiny = hash_evm then fuzz_loop transact max_input_bytes s1 buffer1 (i + 1) rest
        else Except.error (mismatch_message i buffer1)

/-- Hex value of one character, as `hex::decode` accepts. -/
def hexVal (c : Char) : Option Nat :=
  if 48 ≤ c.toNat ∧ c.toNat ≤ 57 then some (c.toNat - 48)
  else if 97 ≤ c.toNat ∧ c.toNat ≤ 102 then some (c.toNat - 87)
  else if 65 ≤ c.toNat ∧ c.toNat ≤ 70 then some (c.toNat - 55)
  else none

/-- `hex::decode` (external crate): pairs of hex digits to bytes; odd length
or a non-hex character is an error. -/
def hex_decode : List Char → Except String (List Nat)
  | [] => Except.ok []
  | [_] => Except.error "hex: odd number of digits"
  | a :: b :: rest =>
    match hexVal a, hexVal b with
    | some ha, some hb =>
      match hex_decode rest with
      | Except.ok t => Except.ok ((16 * ha + hb) :: t)
      | Except.error e => Except.error e
    | _, _ => Except.error "hex: invalid character"

/-- `revm::primitives::AccountInfo` as far as `deploy_contract` fills it in:
the code blob and its content hash. -/
structure AccountInfo where
  code_hash : List Nat
  code : List Nat
  deriving DecidableEq

/-- `deploy_contract` from `src/main.rs`: hex-decode the embedded bytecode
(`?` propagates a decode failure), hash it, and insert the account at the
sponge address.  The model returns the inserted account. -/
def deploy_contract (bytecodeHex : List Char) : Except String AccountInfo :=
  match hex_decode bytecodeHex with
  | Except.error e => Except.error e
  | Except.ok sponge_code =>
      Except.ok { code_hash := hash_input_tiny sponge_code (List.replicate 32 0),
                  code := sponge_code }

/-- The contract table `fuzz_task` ends up with: `deploy_contract(&mut
cache_db);` DISCARDS the returned `Result`, so on a decode failure the loop
simply runs against a database with no code at the sponge address. -/
def setup_db (bytecodeHex : List Char) : Option AccountInfo :=
  match deploy_contract bytecodeHex with
  | Except.ok info => some info
  | Except.error _ => none

/-- Modelled from the spec: `revm`'s call semantics are external.  A call to
an address holding deployed code runs that code (here: the sponge model); a
call to an address with no code is a trivial success returning no data. -/
def db_transact (db : Option AccountInfo) : Transact (List Nat) := fun s c =>
  match db with
  | none => Except.ok (ExecutionResult.success (EvmOutput.call []), s)
  | some _ => spongeTransact s c

/-- A deliberately corrupted candidate (spec §8's fail-fast scenario): its
squeeze always returns 32 zero bytes, so any input whose Keccak-256 digest is
not all zeroes mismatches. -/
def corrupted_transact : Transact Unit := fun u c =>
  match c with
  | Calldata.absorb _ => Except.ok (ExecutionResult.success (EvmOutput.call []), u)
  | Calldata.squeeze =>
      Except.ok (ExecutionResult.success (EvmOutput.call (List.replicate 32 0)), u)

/-- `num_hashes = diff_count / thread_count` in `main`: Rust integer division
panics on a zero divisor (modelled as `none`). -/
def num_hashes (diff_count thread_count : Nat) : Option Nat :=
  if thread_count = 0 then none else some (diff_count / thread_count)

/-- The per-worker iteration budgets `main` spawns: `thread_count` tasks,
each given `num_hashes` iterations. -/
def worker_assignments (diff_count thread_count : Nat) : Option (List Nat) :=
  (num_hashes diff_count thread_count).map (fun n => List.replicate thread_count n)

/-- The `while let Some(res) = join_set.join_next().await { res?? }` loop of
`main`: walk the worker results in the order they are observed; the first
error returns from `main` immediately and unmodified, otherwise `Ok(())`. -/
def collect_results : List (Except String Unit) → Except String Unit
  | [] => Except.ok ()
  | r :: rest =>
    match r with
    | Except.error e => Except.error e
    | Except.ok _ => collect_results rest

/-- How a run of `main` can end. -/
inductive RunOutcome
  | success
  | failure (msg : String)
  | panicked (msg : String)
  | configRejected (msg : String)
  deriving DecidableEq

/-- Whether an outcome is the `ConfigurationError` rejection path. -/
def RunOutcome.isConfigRejected : RunOutcome → Bool
  | RunOutcome.configRejected _ => true
  | _ => false

/-- `main` from `src/main.rs`, given the worker results as an oracle: compute
`num_hashes` (panicking on a zero `thread_count` — there is no configuration
validation), then spawn the workers and collect their results. -/
def main_outcome (diff_count thread_count : Nat)
    (worker_results : List (Except String Unit)) : RunOutcome :=
  match num_hashes diff_count thread_count with
  | none => RunOutcome.panicked "attempt to divide by zero"
  | some _ =>
    match collect_results worker_results with
    | Except.ok _ => RunOutcome.success
    | Except.error e => RunOutcome.failure e

/-- Number of workers spawned before `main` ends: zero when the `num_hashes`
division already panicked. -/
def workers_spawned (diff_count thread_count : Nat) : Nat :=
  match num_hashes diff_count thread_count with
  | none => 0
  | some _ => thread_count

/-- Processing a sequence of inputs through one Candidate Execution
Environment instance: each input goes through one `hash_input_evm`
(absorb + squeeze) call pair, threading the EVM state. -/
def run_hashes {σ : Type} (transact : Transact σ) : σ → List (List Nat) → Except String σ
  | s, [] => Except.ok s
  | s, x :: xs =>
    match hash_input_evm transact s x with
    | Except.ok (_, s1) => run_hashes transact s1 xs
    | Except.error e => Except.error e

/-! ## Helper lemmas -/

theorem keccak256_length (msg : List Nat) : (keccak256 msg).length = 32 := by
  simp [keccak256]

theorem keccak256_take (msg : List Nat) : (keccak256 msg).take 32 = keccak256 msg := by
  rw [← keccak256_length msg]
  exact List.take_length (keccak256 msg)

theorem hash_input_tiny_of_len32 (input : List Nat) (output : List Nat)
    (h : output.length = 32) : hash_input_tiny input output = keccak256 input := by
  have hd : output.drop 32 = [] := by
    rw [← h]
    exact List.drop_length output
  simp [hash_input_tiny, hd]

theorem sponge_hash (s x : List Nat) :
    hash_input_evm spongeTransact s x = Except.ok (keccak256 (s ++ x), []) := by
  simp [hash_input_evm, spongeTransact, abi_decode_returns, keccak256_length,
    keccak256_take]

theorem run_hashes_sponge (prior : List (List Nat)) :
    run_hashes spongeTransact [] prior = Except.ok [] := by
  induction prior with
  | nil => rfl
  | cons x xs ih => simp [run_hashes, sponge_hash, ih]

theorem collect_results_ok_iff (rs : List (Except String Unit)) :
    collect_results rs = Except.ok () ↔ ∀ r ∈ rs, r = Except.ok () := by
  induction rs with
  | nil => simp [collect_results]
  | cons r rest ih =>
    cases r with
    | ok u => cases u; simp [collect_results, ih]
    | error e => simp [collect_results]

/-- Characterization of a successful `hash_input_evm`: both `transact_commit`
calls return `Success`, the squeeze output is call data of at least one
32-byte word, and the digest is its first word. -/
theorem hash_input_evm_ok_spec {σ : Type} (transact : Transact σ) (s : σ)
    (input : List Nat) (d : List Nat) (s2 : σ) :
    hash_input_evm transact s input = Except.ok (d, s2) ↔
      ∃ o s1 data,
        transact s (Calldata.absorb input) = Except.ok (ExecutionResult.success o, s1) ∧
        transact s1 Calldata.squeeze
          = Except.ok (ExecutionResult.success (EvmOutput.call data), s2) ∧
        32 ≤ data.length ∧ d = data.take 32 := by
  constructor
  · intro hd
    rcases h1 : transact s (Calldata.absorb input) with e1 | ⟨r1, s1⟩ <;>
      simp only [hash_input_evm, h1] at hd
    · exact Except.noConfusion hd
    · cases r1 with
      | revert out => exact Except.noConfusion hd
      | halt r => exact Except.noConfusion hd
      | success o =>
        rcases h2 : transact s1 Calldata.squeeze with e2 | ⟨r2, s2v⟩ <;>
          rw [h2] at hd
        · exact Except.noConfusion hd
        · cases r2 with
          | revert out => exact Except.noConfusion hd
          | halt r => exact Except.noConfusion hd
          | success o2 =>
            cases o2 with
            | create data => exact Except.noConfusion hd
            | call data =>
              simp only [abi_decode_returns] at hd
              by_cases hlen : 32 ≤ data.length
              · rw [if_pos hlen] at hd
                simp only [Except.ok.injEq, Prod.mk.injEq] at hd
                obtain ⟨hdd, hss⟩ := hd
                subst hss
                exact ⟨o, s1, data, rfl, h2, hlen, hdd.symm⟩
              · rw [if_neg hlen] at hd
                exact Except.noConfusion hd
  · rintro ⟨o, s1, data, h1, h2, hlen, hdd⟩
    subst hdd
    simp [hash_input_evm, h1, h2, abi_decode_returns, hlen]

theorem collect_results_first_error (pre : List (Except String Unit)) (e : String)
    (post : List (Except String Unit)) (hpre : ∀ r ∈ pre, r = Except.ok ()) :
    collect_results (pre ++ Except.error e :: post) = Except.error e := by
  induction pre with
  | nil => simp [collect_results]
  | cons p rest ih =>
    have hp : p = Except.ok () := hpre p (by simp)
    subst hp
    simp only [List.cons_append, collect_results]
    exact ih (fun r hr => hpre r (by simp [hr]))

/-! ## Claim theorems -/

/-- C4: the controller assigns each of the `worker_count` workers exactly
`total_iterations / worker_count` iterations; the integer-division remainder
is dropped from the total, not redistributed; with 100000 iterations and 4
workers each worker runs exactly 25000 iterations. -/
theorem partition_floor (diff_count thread_count : Nat) (hpos : 0 < thread_count) :
    worker_assignments diff_count thread_count
      = some (List.replicate thread_count (diff_count / thread_count)) ∧
    (∀ a ∈ List.replicate thread_count (diff_count / thread_count),
      a = diff_count / thread_count) ∧
    (List.replicate thread_count (diff_count / thread_count)).sum
      = diff_count - diff_count % thread_count ∧
    worker_assignments 100000 4 = some (List.replicate 4 25000) := by
  refine ⟨?_, ?_, ?_, ?_⟩
  · simp [worker_assignments, num_hashes, Nat.pos_iff_ne_zero.mp hpos]
  · intro a ha
    exact List.eq_of_mem_replicate ha
  · have hdm := Nat.div_add_mod diff_count thread_count
    simp [List.sum_replicate, smul_eq_mul]
    omega
  · rfl

/-- C4 witness: concrete instance with 100000 iterations and 4 workers. -/
theorem partition_floor_witness :
    worker_assignments 100000 4 = some (List.replicate 4 25000) :=
  (partition_floor 100000 4 (by decide)).1

/-- C3 counterexample: with `thread_count = 0` the run does not end in the
`ConfigurationError` rejection path the claim requires — it panics with a
division by zero when `main` computes `diff_count / thread_count`. -/
theorem zero_workers_counterexample :
    main_outcome 100000 0 [] = RunOutcome.panicked "attempt to divide by zero" ∧
    (main_outcome 100000 0 []).isConfigRejected = false := by
  exact ⟨rfl, rfl⟩

/-- C3 (amended): a zero `worker_count` makes the per-worker division in
`main` panic before any worker is spawned; no fuzzing begins, but the
failure is an uncontrolled division-by-zero panic, not a
`ConfigurationError`. -/
theorem zero_workers_panics (diff_count : Nat) (results : List (Except String Unit)) :
    main_outcome diff_count 0 results = RunOutcome.panicked "attempt to divide by zero" ∧
    (main_outcome diff_count 0 results).isConfigRejected = false ∧
    workers_spawned diff_count 0 = 0 := by
  refine ⟨rfl, rfl, rfl⟩

/-- C6: the controller returns success exactly when every worker result is
success, and the first worker error it observes is surfaced unmodified,
ending the run without continuing past it. -/
theorem controller_first_error (rs : List (Except String Unit)) :
    (collect_results rs = Except.ok () ↔ ∀ r ∈ rs, r = Except.ok ()) ∧
    (∀ pre e post, rs = pre ++ Except.error e :: post →
      (∀ r ∈ pre, r = Except.ok ()) → collect_results rs = Except.error e) := by
  refine ⟨collect_results_ok_iff rs, ?_⟩
  intro pre e post hrs hpre
  rw [hrs]
  exact collect_results_first_error pre e post hpre

/-- C6 witness: a controller observing one clean worker, then a failing one,
surfaces the failing worker's message verbatim. -/
theorem controller_first_error_witness :
    collect_results [Except.ok (), Except.error "boom", Except.ok ()]
      = Except.error "boom" :=
  (controller_first_error [Except.ok (), Except.error "boom", Except.ok ()]).2
    [Except.ok ()] "boom" [Except.ok ()] rfl (by intro r hr; simpa using hr)

/-- C8: the reference hasher is pure and deterministic — its result depends
only on the input, not on the previous contents of the caller's output
buffer; it always writes exactly the 32-byte Keccak-256 digest, and (being a
total function) has no error conditions. -/
theorem hash_input_tiny_pure (input out1 out2 : List Nat)
    (h1 : out1.length = 32) (h2 : out2.length = 32) :
    hash_input_tiny input out1 = hash_input_tiny input out2 ∧
    (hash_input_tiny input out1).length = 32 ∧
    hash_input_tiny input out1 = keccak256 input := by
  rw [hash_input_tiny_of_len32 input out1 h1, hash_input_tiny_of_len32 input out2 h2]
  exact ⟨rfl, keccak256_length input, rfl⟩

/-- C8 witness: two calls on the same input with differently filled 32-byte
buffers produce the same digest. -/
theorem hash_input_tiny_pure_witness :
    hash_input_tiny [2, 3] (List.replicate 32 0)
      = hash_input_tiny [2, 3] (List.replicate 32 7) :=
  (hash_input_tiny_pure [2, 3] (List.replicate 32 0) (List.replicate 32 7)
    (by simp) (by simp)).1

/-- C10: with `max_input_bytes ≥ 1` the generated length is strictly below
the buffer length, so the slice `bytes[0..len]` is always in bounds; with
`max_input_bytes = 0` the length draw itself fails (empty range). -/
theorem slicing_safe (max : Nat) (buffer : List Nat) (seed : Nat)
    (hbuf : buffer.length = max) (hmax : 0 < max) :
    (∃ len, gen_range seed 0 max = some len ∧ len < max ∧
      slice buffer len = some (buffer.take len)) ∧
    gen_range seed 0 0 = none := by
  refine ⟨⟨seed % max, ?_, Nat.mod_lt seed hmax, ?_⟩, rfl⟩
  · simp [gen_range, hmax]
  · have : seed % max < max := Nat.mod_lt seed hmax
    simp [slice]
    omega

/-- C10 witness: a one-byte buffer with `max_input_bytes = 1`. -/
theorem slicing_safe_witness : gen_range 5 0 0 = none :=
  (slicing_safe 1 [0] 5 rfl (by decide)).2

/-- C7: for every positive `max_input_bytes` the generated length lies in
`[0, max_input_bytes)`; every value in that range (including 0) is
reachable; over a window of `max` consecutive seeds each length occurs
exactly once; with `max_input_bytes = 1` every draw is length 0, and an
iteration on the resulting empty input still succeeds against a correct
candidate. -/
theorem gen_range_uniform (max : Nat) (hmax : 0 < max) :
    (∀ seed, ∃ len, gen_range seed 0 max = some len ∧ len < max) ∧
    (∀ len, len < max → ∃ seed, gen_range seed 0 max = some len) ∧
    (List.range max).map (fun seed => gen_range seed 0 max)
      = (List.range max).map some ∧
    (∀ seed, gen_range seed 0 1 = some 0) ∧
    (∀ seed fill, fuzz_loop spongeTransact 1 [] [0] 0 [(seed, fill)] = Except.ok ()) := by
  refine ⟨?_, ?_, ?_, ?_, ?_⟩
  · intro seed
    exact ⟨seed % max, by simp [gen_range, hmax], Nat.mod_lt seed hmax⟩
  · intro len hlen
    exact ⟨len, by simp [gen_range, hmax, Nat.mod_eq_of_lt hlen]⟩
  · apply List.map_congr_left
    intro s hs
    have hlt : s < max := List.mem_range.mp hs
    simp [gen_range, hmax, Nat.mod_eq_of_lt hlt]
  · intro seed
    simp [gen_range, Nat.mod_one]
  · intro seed fill
    have hg : gen_range seed 0 1 = some 0 := by simp [gen_range, Nat.mod_one]
    simp only [fuzz_loop, hg]
    simp [sponge_hash, hash_input_tiny]

/-- C7 witness: with `max_input_bytes = 1` the draw at seed 0 is length 0
and a one-iteration run on the empty input succeeds. -/
theorem gen_range_uniform_witness :
    fuzz_loop spongeTransact 1 [] [0] 0 [(0, [])] = Except.ok () :=
  (gen_range_uniform 1 (by decide)).2.2.2.2 0 []

/-- C5: `hash_input_evm` returns `Ok` with a digest exactly when the absorb
call and the squeeze call both execute to `Success` (the squeeze with call
output of at least a 32-byte word, so the `bytes32` decode succeeds); the
digest then has 32 bytes; and the worker loop propagates any
`hash_input_evm` error of an iteration as its own result, without
retrying. -/
theorem hash_input_evm_ok_iff {σ : Type} (transact : Transact σ) (s : σ) (input : List Nat) :
    ((∃ d s2, hash_input_evm transact s input = Except.ok (d, s2)) ↔
      (∃ o s1 data s2,
        transact s (Calldata.absorb input) = Except.ok (ExecutionResult.success o, s1) ∧
        transact s1 Calldata.squeeze
          = Except.ok (ExecutionResult.success (EvmOutput.call data), s2) ∧
        32 ≤ data.length)) ∧
    (∀ d s2, hash_input_evm transact s input = Except.ok (d, s2) → d.length = 32) ∧
    (∀ e max buffer i seed len fill rest,
      gen_range seed 0 max = some len →
      hash_input_evm transact s ((fill.take len ++ buffer.drop len).take len)
        = Except.error e →
      fuzz_loop transact max s buffer i ((seed, fill) :: rest) = Except.error e) := by
  refine ⟨⟨?_, ?_⟩, ?_, ?_⟩
  · rintro ⟨d, s2, hd⟩
    obtain ⟨o, s1, data, h1, h2, hlen, hdd⟩ :=
      (hash_input_evm_ok_spec transact s input d s2).mp hd
    exact ⟨o, s1, data, s2, h1, h2, hlen⟩
  · rintro ⟨o, s1, data, s2, h1, h2, h3⟩
    exact ⟨data.take 32, s2,
      (hash_input_evm_ok_spec transact s input (data.take 32) s2).mpr
        ⟨o, s1, data, h1, h2, h3, rfl⟩⟩
  · intro d s2 hd
    obtain ⟨o, s1, data, h1, h2, hlen, hdd⟩ :=
      (hash_input_evm_ok_spec transact s input d s2).mp hd
    subst hdd
    simp [List.length_take, Nat.min_eq_left hlen]
  · intro e max buffer i seed len fill rest hgen herr
    simp only [fuzz_loop, hgen]
    simp only [herr]

/-- C5 witness: against a database with no deployed code both calls succeed
with empty output, the `bytes32` decode fails, and the loop surfaces exactly
that decode error. -/
theorem hash_input_evm_ok_iff_witness :
    fuzz_loop (db_transact none) 1 [] [0] 0 [(0, [])]
      = Except.error "abi_decode: buffer overrun while deserializing" :=
  (hash_input_evm_ok_iff (db_transact none) [] []).2.2
    "abi_decode: buffer overrun while deserializing" 1 [0] 0 0 0 [] [] rfl rfl

/-- C1: for every input `x` shorter than `max_input_bytes`, after any number
of prior inputs processed through the same Candidate Execution Environment
the sponge state is back to empty, and the candidate digest produced by the
absorb/squeeze pair equals the reference digest `hash_input_tiny` writes for
the same `x`. -/
theorem agreement (prior : List (List Nat)) (x : List Nat) (max_input_bytes : Nat)
    (hx : x.length < max_input_bytes) :
    run_hashes spongeTransact [] prior = Except.ok [] ∧
    hash_input_evm spongeTransact [] x
      = Except.ok (hash_input_tiny x (List.replicate 32 0), []) := by
  refine ⟨run_hashes_sponge prior, ?_⟩
  rw [sponge_hash]
  rw [hash_input_tiny_of_len32 x (List.replicate 32 0) (by simp)]
  simp

/-- C1 witness: after two prior inputs the candidate still returns the
reference digest of `[3]`. -/
theorem agreement_witness :
    run_hashes spongeTransact [] [[1], [2]] = Except.ok [] ∧
    hash_input_evm spongeTransact [] [3]
      = Except.ok (hash_input_tiny [3] (List.replicate 32 0), []) :=
  agreement [[1], [2]] [3] 2 (by decide)

/-- C9: when hex-decoding the candidate bytecode fails, `fuzz_task` does not
abort during setup — the `deploy_contract` result is discarded and the
database simply has no account at the sponge address — and the failure
surfaces only inside the loop, as the `bytes32` decode `ExecutionError` of
the squeeze call (both raw calls trivially succeed against the empty
account). -/
theorem deploy_discarded (bytecodeHex : List Char) (e : String)
    (hfail : deploy_contract bytecodeHex = Except.error e) :
    setup_db bytecodeHex = none ∧
    (∀ s input, hash_input_evm (db_transact (setup_db bytecodeHex)) s input
      = Except.error "abi_decode: buffer overrun while deserializing") ∧
    (∀ max s buffer i seed len fill rest, gen_range seed 0 max = some len →
      fuzz_loop (db_transact (setup_db bytecodeHex)) max s buffer i
        ((seed, fill) :: rest)
        = Except.error "abi_decode: buffer overrun while deserializing") := by
  have hdb : setup_db bytecodeHex = none := by simp [setup_db, hfail]
  refine ⟨hdb, ?_, ?_⟩
  · intro s input
    rw [hdb]
    rfl
  · intro max s buffer i seed len fill rest hgen
    simp only [fuzz_loop, hgen]
    rw [hdb]
    rfl

/-- C9 witness: the bytecode string "zz" fails hex decoding; setup still
proceeds (no account deployed) and the first loop iteration fails with the
squeeze decode error. -/
theorem deploy_discarded_witness :
    fuzz_loop (db_transact (setup_db ['z', 'z'])) 1 [] [0] 0 [(0, [])]
      = Except.error "abi_decode: buffer overrun while deserializing" :=
  (deploy_discarded ['z', 'z'] "hex: invalid character" rfl).2.2
    1 [] [0] 0 0 0 [] [] rfl

/-- Shared shape of a mismatching iteration: when the length draw yields
`len`, the candidate call succeeds with digest `d`, and the reference digest
differs, the loop stops at once with the `bail!` message built from the
WHOLE buffer. -/
theorem fuzz_loop_mismatch {σ : Type} (transact : Transact σ) (max : Nat) (s : σ)
    (buffer : List Nat) (i : Nat) (seed len : Nat) (fill : List Nat)
    (rest : List (Nat × List Nat)) (d : List Nat) (s1 : σ)
    (hgen : gen_range seed 0 max = some len)
    (hevm : hash_input_evm transact s ((fill.take len ++ buffer.drop len).take len)
      = Except.ok (d, s1))
    (hne : hash_input_tiny ((fill.take len ++ buffer.drop len).take len)
      (List.replicate 32 0) ≠ d) :
    fuzz_loop transact max s buffer i ((seed, fill) :: rest)
      = Except.error (mismatch_message i (fill.take len ++ buffer.drop len)) := by
  simp only [fuzz_loop, hgen]
  simp only [hevm]
  rw [if_neg hne]

/-- C2 counterexample: the failure is not reproducible from the message.
Two iterations that hash DIFFERENT inputs — `[0xAA]` (length draw 1) and
`[0xAA, 0x00]` (length draw 2) — produce the IDENTICAL error message,
because the message hex-encodes the whole reused buffer `[0xAA, 0, 0]`
rather than the input slice; the hex of the actually hashed input `[0xAA]`
is "aa", not the reported "aa0000". -/
theorem mismatch_message_counterexample :
    fuzz_loop corrupted_transact 3 () [0, 0, 0] 0 [(1, [0xAA])]
      = Except.error "Hash mismatch at iteration 0 - input: aa0000" ∧
    fuzz_loop corrupted_transact 3 () [0, 0, 0] 0 [(2, [0xAA, 0x00])]
      = Except.error "Hash mismatch at iteration 0 - input: aa0000" ∧
    ([0xAA] : List Nat) ≠ [0xAA, 0x00] ∧
    hexEncode [0xAA] ≠ "aa0000" := by
  refine ⟨?_, ?_, by decide, by decide⟩
  · have h := fuzz_loop_mismatch corrupted_transact 3 () [0, 0, 0] 0 1 1 [0xAA] []
      (List.replicate 32 0) () rfl rfl (by decide)
    rw [h]
    rfl
  · have h := fuzz_loop_mismatch corrupted_transact 3 () [0, 0, 0] 0 2 2 [0xAA, 0x00] []
      (List.replicate 32 0) () rfl rfl (by decide)
    rw [h]
    rfl

/-- C2 (amended): when the digests differ at iteration `i` the worker fails
immediately and the message contains the iteration index and the hex
encoding of the ENTIRE reused input buffer; the bytes actually hashed are
the length-`len` prefix of that buffer, but `len` is not recorded, so the
message need not determine the input. -/
theorem mismatch_reports_full_buffer {σ : Type} (transact : Transact σ) (max : Nat)
    (s : σ) (buffer : List Nat) (i : Nat) (seed len : Nat) (fill : List Nat)
    (rest : List (Nat × List Nat)) (d : List Nat) (s1 : σ)
    (hgen : gen_range seed 0 max = some len)
    (hevm : hash_input_evm transact s ((fill.take len ++ buffer.drop len).take len)
      = Except.ok (d, s1))
    (hne : hash_input_tiny ((fill.take len ++ buffer.drop len).take len)
      (List.replicate 32 0) ≠ d) :
    fuzz_loop transact max s buffer i ((seed, fill) :: rest)
      = Except.error (mismatch_message i (fill.take len ++ buffer.drop len)) ∧
    mismatch_message i (fill.take len ++ buffer.drop len)
      = "Hash mismatch at iteration " ++ toString i ++ " - input: "
        ++ hexEncode (fill.take len ++ buffer.drop len) :=
  ⟨fuzz_loop_mismatch transact max s buffer i seed len fill rest d s1 hgen hevm hne, rfl⟩

/-- C2 (amended) witness: the corrupted candidate at iteration 0 with length
draw 1 over buffer `[0xAA, 0, 0]`. -/
theorem mismatch_reports_full_buffer_witness :
    fuzz_loop corrupted_transact 3 () [0, 0, 0] 0 [(1, [0xAA])]
      = Except.error (mismatch_message 0 ([0xAA].take 1 ++ [0, 0, 0].drop 1)) :=
  (mismatch_reports_full_buffer corrupted_transact 3 () [0, 0, 0] 0 1 1 [0xAA] []
    (List.replicate 32 0) () rfl rfl (by decide)).1

end KeccakFuzz
